import Mathlib

/-!
Shallow embedding of mixpanel/configmanager: the state manager
(model/model.go), the file watcher (configmap package) and the typed
accessor client (client.go), with theorems about the behaviour the
specification describes.

Go pointers to `Config` instances are modelled as indices into an
explicit heap (a list of `Config` records); `json.RawMessage`
sub-documents are modelled by the JSON value they denote; Go `float64`
is modelled by `ℚ`; side effects that leave the modelled state
(logging, expvar publication, channel notification, condition-variable
broadcast) are either recorded as booleans in result records or
omitted where no claim mentions them.
-/

namespace ConfigManager

/-- JSON document values. This models the documents handled by Go's
`encoding/json`: a `json.RawMessage` (the unparsed `value` sub-document of
a record) is represented by the JSON value it denotes, abstracting the
byte-level formatting. -/
inductive JVal where
  | jnull : JVal
  | jbool (b : Bool) : JVal
  | jnum (q : ℚ) : JVal
  | jstr (s : String) : JVal
  | jarr (xs : List JVal) : JVal
  | jobj (fields : List (String × JVal)) : JVal

/-- Values a `Config`'s `parsedValue interface{}` field can hold: every Go
type the client layer ever stores via `SetParsedValue` or inspects through
a type switch (`bool`, `int64`, `int32`, `int`, `float64`, `float32`,
`string`, `uint8`, `map[int64]struct{}`, `map[string]struct{}`). -/
inductive PV where
  | pBool (b : Bool) : PV
  | pInt64 (n : Int) : PV
  | pInt32 (n : Int) : PV
  | pInt (n : Int) : PV
  | pFloat64 (q : ℚ) : PV
  | pFloat32 (q : ℚ) : PV
  | pString (s : String) : PV
  | pUint8 (n : Nat) : PV
  | pInt64Set (xs : List Int) : PV
  | pStrSet (xs : List String) : PV
deriving DecidableEq

/-- The `Config` struct of model/model.go: a key, the raw (unparsed) value
sub-document, and the mutable memoization field `parsedValue`. -/
structure Config where
  Key : String
  RawValue : JVal
  parsedValue : Option PV := none

/-- The heap of `*Config` instances reachable from one state manager; a Go
pointer is an index into this list. -/
abbrev Heap := List Config

/-- Key of the `Config` a pointer refers to (the empty string for a dangling
pointer, which never arises in reachable states). -/
def keyAt (h : Heap) (cid : Nat) : String :=
  (h[cid]?.map Config.Key).getD ""

/-- Raw value of the `Config` a pointer refers to. -/
def rawAt (h : Heap) (cid : Nat) : Option JVal :=
  h[cid]?.map Config.RawValue

/-- Memoized value of the `Config` a pointer refers to. -/
def parsedAt (h : Heap) (cid : Nat) : Option PV :=
  h[cid]?.bind Config.parsedValue

/-- The `State` struct of model/model.go: the parsed list of configs plus
the derived key index `cache`, modelled as a map from key to pointer. -/
structure State where
  Configs : List Nat
  cache : String → Option Nat

/-- Map assignment `cache[k] = cid` for the key index. -/
def cacheInsert (m : String → Option Nat) (k : String) (cid : Nat) :
    String → Option Nat :=
  fun q => if q = k then some cid else m q

/-- The `buildCache` method: insert every config into the cache in list
order, so the last occurrence of a duplicated key wins. -/
def State.buildCache (h : Heap) (s : State) : State :=
  { s with cache := s.Configs.foldl (fun m cid => cacheInsert m (keyAt h cid) cid) s.cache }

/-- Errors surfaced to the accessor layer: `model.ErrNotFound` from a key
lookup, and a `json.Unmarshal` mismatch inside a typed getter.
`obserr.Annotate` wrapping preserves the original error, so an annotated
error is modelled by its original kind. -/
inductive GetErr where
  | notFound : GetErr
  | unmarshalErr : GetErr
deriving DecidableEq

/-- The `State.get` method: cache lookup, `ErrNotFound` when absent. -/
def State.get (s : State) (key : String) : Except GetErr Nat :=
  match s.cache key with
  | none => .error .notFound
  | some cid => .ok cid

/-- The `stateManager` struct, restricted to the fields claims mention: the
heap of `Config` instances it has allocated and the published `State`
pointer (`none` models the nil pointer before the first successful load). -/
structure stateManager where
  heap : Heap
  State : Option State

/-- Errors of `loadConfig`: a failed file read or a failed JSON parse, each
annotated with the file path. -/
inductive LoadErr where
  | readError (path : String) : LoadErr
  | parseError (path : String) : LoadErr
deriving DecidableEq

/-- Contents of the watched file as one `loadConfig` call observes them:
the read fails, the bytes fail to `json.Unmarshal` into `[]*Config`, or
they parse into a list of `{key, value}` records. -/
inductive FileView where
  | readFail : FileView
  | malformed : FileView
  | records (rs : List (String × JVal)) : FileView

/-- The fresh `Config` instance `json.Unmarshal` allocates for one
`{key, value}` record: raw value = the record's `value` sub-document, memo
field nil. -/
def freshConfig (r : String × JVal) : Config :=
  { Key := r.1, RawValue := r.2, parsedValue := none }

/-- Unmarshalling a record array allocates one fresh `Config` per record,
in array order; each new instance is appended to the heap and its pointer
recorded. -/
def allocConfigs (h : Heap) : List (String × JVal) → Heap × List Nat
  | [] => (h, [])
  | r :: rest =>
      let hc := allocConfigs (h ++ [freshConfig r]) rest
      (hc.1, h.length :: hc.2)

/-- The `loadConfig` method followed by `loadState`: read, parse, build the
key index on a fresh `State`, and only then publish it; on read or parse
failure the manager is returned untouched. The condition-variable
broadcast, the best-effort channel notification and the expvar publication
have no effect on the modelled state. -/
def loadConfig (sm : stateManager) (filePath : String) (file : FileView) :
    stateManager × Except LoadErr Unit :=
  match file with
  | .readFail => (sm, .error (.readError filePath))
  | .malformed => (sm, .error (.parseError filePath))
  | .records rs =>
      let hc := allocConfigs sm.heap rs
      let st := State.buildCache hc.1 { Configs := hc.2, cache := fun _ => none }
      ({ heap := hc.1, State := some st }, .ok ())

/-- The `GetKey` method: a shared-lock read of the published `State`'s
index. `none` models the nil-pointer dereference that would occur if the
`State` pointer were still nil. -/
def stateManager.GetKey (sm : stateManager) (key : String) :
    Option (Except GetErr Nat) :=
  sm.State.map (fun s => s.get key)

/-- The `GetParsedValue` method: read the memo field of the given config. -/
def stateManager.GetParsedValue (sm : stateManager) (cid : Nat) : Option PV :=
  parsedAt sm.heap cid

/-- Write `some v` into the memo field of the config at index `cid`,
leaving every other field and every other config unchanged. -/
def heapSet : Heap → Nat → PV → Heap
  | [], _, _ => []
  | c :: t, 0, v => { c with parsedValue := some v } :: t
  | c :: t, n + 1, v => c :: heapSet t n v

/-- The `SetParsedValue` method: exclusive-locked write of the memo field
of the given config. -/
def stateManager.SetParsedValue (sm : stateManager) (cid : Nat) (v : PV) :
    stateManager :=
  { sm with heap := heapSet sm.heap cid v }

/-! ## File watcher (configmap package) -/

/-- The kinds of `Start` failure: the watched path is absent at call time
(`os.Stat` reports not-exist), or `watcher.Add` fails. -/
inductive StartErrKind where
  | pathNotFound : StartErrKind
  | watchRegistrationErr : StartErrKind
deriving DecidableEq

/-- A `Start` error together with the path recorded on it by
`obserr...Set`; `Start` sets the watched path on the path-not-found error
and no path on the registration error. Later `Annotate` wrapping (in
`init` and `NewStateManager`) keeps both fields. -/
structure StartErr where
  kind : StartErrKind
  pathOnErr : Option String
deriving DecidableEq

/-- Observable outcome of `CmWatcher.Start`: the returned error, whether a
watch was registered via `watcher.Add`, and whether the background loop
goroutine was spawned. -/
structure StartRes where
  err : Option StartErr
  watchAdded : Bool
  loopSpawned : Bool
deriving DecidableEq

/-- The `Start` method of `CmWatcher`: fail with path-not-found if the path
does not exist, else register the watch (which may itself fail), else
spawn exactly one background loop. -/
def CmWatcher.Start (path : String) (pathExists : Bool) (addOk : Bool) :
    StartRes :=
  if pathExists = false then
    { err := some { kind := .pathNotFound, pathOnErr := some path },
      watchAdded := false, loopSpawned := false }
  else if addOk = false then
    { err := some { kind := .watchRegistrationErr, pathOnErr := none },
      watchAdded := false, loopSpawned := false }
  else
    { err := none, watchAdded := true, loopSpawned := true }

/-- Filesystem event operations as matched by the `switch event.Op` in
`startWatcher`; `otherOp` stands for any op value equal to none of the
five named constants (the `default` branch). -/
inductive FsOp where
  | create : FsOp
  | write : FsOp
  | remove : FsOp
  | rename : FsOp
  | chmod : FsOp
  | otherOp : FsOp
deriving DecidableEq

/-- An fsnotify event: the path it names and its operation. -/
structure FsEvent where
  name : String
  op : FsOp
deriving DecidableEq

/-- Observable effect of handling one event in the watcher loop: the paths
passed to `onFileEvent` (in order), the path on which `watcher.Add`
re-registration was attempted, and whether a warning was logged. -/
structure EventEffect where
  callbackPaths : List String
  reAddPath : Option String
  logged : Bool
deriving DecidableEq

/-- One iteration of the event loop in `startWatcher` for an event arriving
on the events channel. `reAddOk` is whether the `watcher.Add`
re-registration succeeds, `cbFails` whether `onFileEvent` returns an
error (a callback error is logged and otherwise ignored). -/
def startWatcherStep (watchPath : String) (ev : FsEvent) (reAddOk : Bool)
    (cbFails : Bool) : EventEffect :=
  if ev.name ≠ watchPath then { callbackPaths := [], reAddPath := none, logged := false }
  else
    match ev.op with
    | .remove | .rename | .chmod =>
        if reAddOk = false then
          { callbackPaths := [], reAddPath := some ev.name, logged := true }
        else
          { callbackPaths := [ev.name], reAddPath := some ev.name, logged := cbFails }
    | .create | .write =>
        { callbackPaths := [ev.name], reAddPath := none, logged := cbFails }
    | .otherOp => { callbackPaths := [], reAddPath := none, logged := false }

/-! ## Construction (`NewStateManager` and `init`) -/

/-- The path `path.Join(dirPath, scope, "configs.json")` the manager
resolves and watches (modulo `path.Join`'s lexical cleaning, which is the
identity on ordinary path components). -/
def resolvePath (dirPath : String) (scope : String) : String :=
  dirPath ++ "/" ++ scope ++ "/configs.json"

/-- Run the sequence of `loadConfig` invocations the watcher loop performs
(the eager one at loop start and one per handled event), each observing
the file contents listed in `files`. -/
def runLoads (sm : stateManager) (filePath : String) (files : List FileView) :
    stateManager :=
  files.foldl (fun m f => (loadConfig m filePath f).1) sm

/-- Observable outcome of `NewStateManager`: the manager it returns (if
any), the construction error (if any), and whether a watch and a
background loop were left behind. `mgr = none` with `err = none` models
the constructor still blocked on the condition variable because no load
has yet succeeded. -/
structure NewSMOutcome where
  mgr : Option stateManager
  err : Option StartErr
  watchAdded : Bool
  loopSpawned : Bool

/-- The `NewStateManager` function with `init`: resolve the file path,
start the watcher (propagating its error, which already carries the
resolved path, as a construction failure), then block until the published
`State` is non-nil. `files` is the sequence of file contents observed by
the successive `loadConfig` calls the loop makes while the constructor
waits. -/
def NewStateManager (dirPath : String) (scope : String) (pathExists : Bool)
    (addOk : Bool) (files : List FileView) : NewSMOutcome :=
  let p := resolvePath dirPath scope
  let st := CmWatcher.Start p pathExists addOk
  match st.err with
  | some e =>
      { mgr := none, err := some e,
        watchAdded := st.watchAdded, loopSpawned := st.loopSpawned }
  | none =>
      let m := runLoads { heap := [], State := none } p files
      match m.State with
      | some _ => { mgr := some m, err := none, watchAdded := true, loopSpawned := true }
      | none => { mgr := none, err := none, watchAdded := true, loopSpawned := true }

/-! ## The `model.StateManager` interface and the client (client.go)

The client holds a `model.StateManager`, which at runtime is either the
real `stateManager` or the `NullStateManager`. Typed getters return
`Option` results: `none` models the nil-pointer dereference a real
manager with a nil `State` would hit, which never occurs for a manager
obtained from a successful construction. -/

/-- A `model.StateManager` as the client sees it: the null implementation
or a real state manager. -/
inductive SM where
  | null : SM
  | mgr (m : stateManager) : SM

/-- Interface dispatch of `GetKey`: `NullStateManager.GetKey` always
returns `ErrNotFound`. -/
def SM.GetKey : SM → String → Option (Except GetErr Nat)
  | .null, _ => some (.error .notFound)
  | .mgr m, k => m.GetKey k

/-- Interface dispatch of `GetParsedValue`: the null implementation
returns nil. -/
def SM.GetParsedValue : SM → Nat → Option PV
  | .null, _ => none
  | .mgr m, cid => m.GetParsedValue cid

/-- Interface dispatch of `SetParsedValue`: the null implementation has an
empty body. -/
def SM.SetParsedValue : SM → Nat → PV → SM
  | .null, _, _ => .null
  | .mgr m, cid, v => .mgr (m.SetParsedValue cid v)

/-- Interface dispatch of `Close`: the null implementation has an empty
body; the real one stops the watcher, which does not touch the heap or
the published `State`. -/
def SM.Close : SM → SM
  | .null => .null
  | .mgr m => .mgr m

/-- Raw value of the config a pointer refers to, through the interface. -/
def SM.rawAt : SM → Nat → Option JVal
  | .null, _ => none
  | .mgr m, cid => ConfigManager.rawAt m.heap cid

/-! Decoders modelling `json.Unmarshal` of a raw value into each Go
target type the client uses. Go accepts JSON `true`/`false` for `bool`,
a number for the numeric types (an integral one, within the type's
range, for `int64`/`uint8`), a JSON string for `string`, and a JSON
object for the whitelist maps (whose keys must parse as `int64` for
`map[int64]struct{}`). Unmarshalling the JSON literal `null` is a no-op
success for every target: it leaves the target unchanged and returns no
error for the scalar types, and sets a map target to the nil map. Every
getter unmarshals into a freshly declared variable (zero value for the
scalars; for the maps, lookups in the resulting nil map all miss), so
`null` decodes to the zero value, and to the empty set for the maps. -/

/-- Unmarshal into `bool`; `null` is a no-op success leaving `false`. -/
def decodeBool : JVal → Option Bool
  | .jbool b => some b
  | .jnull => some false
  | _ => none

/-- Unmarshal into `int64`: an integral number within int64 range;
`null` is a no-op success leaving `0`. -/
def decodeInt64 : JVal → Option Int
  | .jnum q =>
      if q.den = 1 ∧ -(2 ^ 63) ≤ q.num ∧ q.num < 2 ^ 63 then some q.num else none
  | .jnull => some 0
  | _ => none

/-- Unmarshal into `float64`; `null` is a no-op success leaving `0`. -/
def decodeFloat64 : JVal → Option ℚ
  | .jnum q => some q
  | .jnull => some 0
  | _ => none

/-- Unmarshal into `string`; `null` is a no-op success leaving `""`. -/
def decodeString : JVal → Option String
  | .jstr s => some s
  | .jnull => some ""
  | _ => none

/-- Unmarshal into `uint8`: an integral number within uint8 range;
`null` is a no-op success leaving `0`. -/
def decodeUint8 : JVal → Option Nat
  | .jnum q => if q.den = 1 ∧ 0 ≤ q.num ∧ q.num < 256 then some q.num.toNat else none
  | .jnull => some 0
  | _ => none

/-- Unmarshal into `map[string]struct{}`: the key set of the object;
`null` sets the map to nil (every lookup misses), modelled by the empty
set. -/
def decodeStrSet : JVal → Option (List String)
  | .jobj fs => some (fs.map Prod.fst)
  | .jnull => some []
  | _ => none

/-- Unmarshal into `map[int64]struct{}`: every object key must parse as an
`int64`; `null` sets the map to nil (every lookup misses), modelled by
the empty set. -/
def decodeInt64Set : JVal → Option (List Int)
  | .jobj fs => (fs.map Prod.fst).mapM String.toInt?
  | .jnull => some []
  | _ => none

/-- The client `Unmarshal` method specialised to a target shape: fetch the
config by key (again), then run `unmarshalFn` (= `json.Unmarshal`) on its
raw value. The second component counts invocations of `unmarshalFn`.
A `GetKey` failure keeps `ErrNotFound` as its original error through the
`Annotate` wrapper. -/
def clientUnmarshal {α : Type} (dec : JVal → Option α) (sm : SM) (key : String) :
    Option (Except GetErr α × Nat) :=
  match sm.GetKey key with
  | none => none
  | some (.error _) => some (.error .notFound, 0)
  | some (.ok cid) =>
      match sm.rawAt cid with
      | none => none
      | some raw =>
          match dec raw with
          | some v => some (.ok v, 1)
          | none => some (.error .unmarshalErr, 1)

/-- Result of an internal getter (`getBoolean` and friends): the value, the
manager after any memoization write, the error returned (nil on success),
and how many times `unmarshalFn` ran. -/
structure GetOut (α : Type) where
  val : α
  sm : SM
  err : Option GetErr
  desers : Nat

/-- Result of an exported typed getter: the value, the manager after any
memoization write, whether `logErrGet` emitted a log record, and how many
times `unmarshalFn` ran. -/
structure TypedOut (α : Type) where
  val : α
  sm : SM
  logged : Bool
  desers : Nat

/-- The `logErrGet` logging decision: log exactly when the original error
is not `model.ErrNotFound`. -/
def logErrGet : GetErr → Bool
  | .notFound => false
  | _ => true

/-- Wrap an internal getter result the way each exported getter does: on
error return the default and consult `logErrGet`. -/
def wrapTyped {α : Type} (defaultVal : α) : Option (GetOut α) → Option (TypedOut α)
  | none => none
  | some r =>
      match r.err with
      | some e => some { val := defaultVal, sm := r.sm, logged := logErrGet e, desers := r.desers }
      | none => some { val := r.val, sm := r.sm, logged := false, desers := r.desers }

/-- The `getBoolean` method: fetch the config; return a memoized `bool` if
present; otherwise `Unmarshal` and memoize via `SetParsedValue`. -/
def getBoolean (sm : SM) (key : String) (defaultVal : Bool) : Option (GetOut Bool) :=
  match sm.GetKey key with
  | none => none
  | some (.error e) => some { val := defaultVal, sm := sm, err := some e, desers := 0 }
  | some (.ok cid) =>
      match sm.GetParsedValue cid with
      | some (.pBool v) => some { val := v, sm := sm, err := none, desers := 0 }
      | _ =>
          match clientUnmarshal decodeBool sm key with
          | none => none
          | some (.error e, n) => some { val := defaultVal, sm := sm, err := some e, desers := n }
          | some (.ok v, n) =>
              some { val := v, sm := sm.SetParsedValue cid (.pBool v), err := none, desers := n }

/-- The exported `GetBoolean`. -/
def GetBoolean (sm : SM) (key : String) (defaultVal : Bool) : Option (TypedOut Bool) :=
  wrapTyped defaultVal (getBoolean sm key defaultVal)

/-- The `getInt64` method; its memo type switch also accepts `int32` and
`int`. -/
def getInt64 (sm : SM) (key : String) (defaultVal : Int) : Option (GetOut Int) :=
  match sm.GetKey key with
  | none => none
  | some (.error e) => some { val := defaultVal, sm := sm, err := some e, desers := 0 }
  | some (.ok cid) =>
      match sm.GetParsedValue cid with
      | some (.pInt64 v) => some { val := v, sm := sm, err := none, desers := 0 }
      | some (.pInt32 v) => some { val := v, sm := sm, err := none, desers := 0 }
      | some (.pInt v) => some { val := v, sm := sm, err := none, desers := 0 }
      | _ =>
          match clientUnmarshal decodeInt64 sm key with
          | none => none
          | some (.error e, n) => some { val := defaultVal, sm := sm, err := some e, desers := n }
          | some (.ok v, n) =>
              some { val := v, sm := sm.SetParsedValue cid (.pInt64 v), err := none, desers := n }

/-- The exported `GetInt64`. -/
def GetInt64 (sm : SM) (key : String) (defaultVal : Int) : Option (TypedOut Int) :=
  wrapTyped defaultVal (getInt64 sm key defaultVal)

/-- The `getFloat64` method; its memo type switch also accepts `float32`. -/
def getFloat64 (sm : SM) (key : String) (defaultVal : ℚ) : Option (GetOut ℚ) :=
  match sm.GetKey key with
  | none => none
  | some (.error e) => some { val := defaultVal, sm := sm, err := some e, desers := 0 }
  | some (.ok cid) =>
      match sm.GetParsedValue cid with
      | some (.pFloat64 v) => some { val := v, sm := sm, err := none, desers := 0 }
      | some (.pFloat32 v) => some { val := v, sm := sm, err := none, desers := 0 }
      | _ =>
          match clientUnmarshal decodeFloat64 sm key with
          | none => none
          | some (.error e, n) => some { val := defaultVal, sm := sm, err := some e, desers := n }
          | some (.ok v, n) =>
              some { val := v, sm := sm.SetParsedValue cid (.pFloat64 v), err := none, desers := n }

/-- The exported `GetFloat64`. -/
def GetFloat64 (sm : SM) (key : String) (defaultVal : ℚ) : Option (TypedOut ℚ) :=
  wrapTyped defaultVal (getFloat64 sm key defaultVal)

/-- The `getString` method. -/
def getString (sm : SM) (key : String) (defaultVal : String) : Option (GetOut String) :=
  match sm.GetKey key with
  | none => none
  | some (.error e) => some { val := defaultVal, sm := sm, err := some e, desers := 0 }
  | some (.ok cid) =>
      match sm.GetParsedValue cid with
      | some (.pString v) => some { val := v, sm := sm, err := none, desers := 0 }
      | _ =>
          match clientUnmarshal decodeString sm key with
          | none => none
          | some (.error e, n) => some { val := defaultVal, sm := sm, err := some e, desers := n }
          | some (.ok v, n) =>
              some { val := v, sm := sm.SetParsedValue cid (.pString v), err := none, desers := n }

/-- The exported `GetString`. -/
def GetString (sm : SM) (key : String) (defaultVal : String) : Option (TypedOut String) :=
  wrapTyped defaultVal (getString sm key defaultVal)

/-- The `getByte` method. -/
def getByte (sm : SM) (key : String) (defaultVal : Nat) : Option (GetOut Nat) :=
  match sm.GetKey key with
  | none => none
  | some (.error e) => some { val := defaultVal, sm := sm, err := some e, desers := 0 }
  | some (.ok cid) =>
      match sm.GetParsedValue cid with
      | some (.pUint8 v) => some { val := v, sm := sm, err := none, desers := 0 }
      | _ =>
          match clientUnmarshal decodeUint8 sm key with
          | none => none
          | some (.error e, n) => some { val := defaultVal, sm := sm, err := some e, desers := n }
          | some (.ok v, n) =>
              some { val := v, sm := sm.SetParsedValue cid (.pUint8 v), err := none, desers := n }

/-- The exported `GetByte`. -/
def GetByte (sm : SM) (key : String) (defaultVal : Nat) : Option (TypedOut Nat) :=
  wrapTyped defaultVal (getByte sm key defaultVal)

/-- The `isTokenWhitelisted` method: membership in a memoized
`map[string]struct{}` if present, else `unmarshalFn` directly on the raw
value, memoize the set, and test membership. -/
def isTokenWhitelisted (sm : SM) (key : String) (token : String)
    (defaultVal : Bool) : Option (GetOut Bool) :=
  match sm.GetKey key with
  | none => none
  | some (.error e) => some { val := defaultVal, sm := sm, err := some e, desers := 0 }
  | some (.ok cid) =>
      match sm.GetParsedValue cid with
      | some (.pStrSet xs) => some { val := xs.contains token, sm := sm, err := none, desers := 0 }
      | _ =>
          match sm.rawAt cid with
          | none => none
          | some raw =>
              match decodeStrSet raw with
              | none => some { val := defaultVal, sm := sm, err := some .unmarshalErr, desers := 1 }
              | some xs =>
                  some { val := xs.contains token,
                         sm := sm.SetParsedValue cid (.pStrSet xs), err := none, desers := 1 }

/-- The exported `IsTokenWhitelisted`. -/
def IsTokenWhitelisted (sm : SM) (key : String) (token : String)
    (defaultVal : Bool) : Option (TypedOut Bool) :=
  wrapTyped defaultVal (isTokenWhitelisted sm key token defaultVal)

/-- The `isProjectWhitelisted` method, over `map[int64]struct{}`. -/
def isProjectWhitelisted (sm : SM) (key : String) (projectID : Int)
    (defaultVal : Bool) : Option (GetOut Bool) :=
  match sm.GetKey key with
  | none => none
  | some (.error e) => some { val := defaultVal, sm := sm, err := some e, desers := 0 }
  | some (.ok cid) =>
      match sm.GetParsedValue cid with
      | some (.pInt64Set xs) =>
          some { val := xs.contains projectID, sm := sm, err := none, desers := 0 }
      | _ =>
          match sm.rawAt cid with
          | none => none
          | some raw =>
              match decodeInt64Set raw with
              | none => some { val := defaultVal, sm := sm, err := some .unmarshalErr, desers := 1 }
              | some xs =>
                  some { val := xs.contains projectID,
                         sm := sm.SetParsedValue cid (.pInt64Set xs), err := none, desers := 1 }

/-- The exported `IsProjectWhitelisted`. -/
def IsProjectWhitelisted (sm : SM) (key : String) (projectID : Int)
    (defaultVal : Bool) : Option (TypedOut Bool) :=
  wrapTyped defaultVal (isProjectWhitelisted sm key projectID defaultVal)

/-- The `rollDie` method: read the key as a `float64` with default 1.0 or
0.0 according to `enabledByDefault`, then compare a draw from the locked
random source against it; enabled iff the draw is strictly below the
probability. `draw` is the value `rng.Float64()` returns. -/
def rollDie (sm : SM) (name : String) (enabledByDefault : Bool) (draw : ℚ) :
    Option (Bool × SM) :=
  let defaultValue : ℚ := if enabledByDefault then 1 else 0
  match GetFloat64 sm name defaultValue with
  | none => none
  | some out => some (decide (draw < out.val), out.sm)

/-- The `IsFeatureEnabled` method delegates to `rollDie`. -/
def IsFeatureEnabled (sm : SM) (key : String) (enabledByDefault : Bool)
    (draw : ℚ) : Option (Bool × SM) :=
  rollDie sm key enabledByDefault draw

/-- Run `n` consecutive `GetBoolean(key, defaultVal)` calls, threading the
manager state through, and collect the returned values, the final state
and the total number of `unmarshalFn` invocations. -/
def iterGetBoolean : Nat → SM → String → Bool → Option (List Bool × SM × Nat)
  | 0, sm, _, _ => some ([], sm, 0)
  | n + 1, sm, k, d =>
      match GetBoolean sm k d with
      | none => none
      | some r =>
          match iterGetBoolean n r.sm k d with
          | none => none
          | some (vs, smFin, cnt) => some (r.val :: vs, smFin, r.desers + cnt)

/-- The value sub-document of the last record in the array whose key is
`k` (searching the array backwards). -/
def lastValue (rs : List (String × JVal)) (k : String) : Option JVal :=
  (rs.reverse.find? (fun r => r.1 == k)).map Prod.snd

/-- The key index of a published snapshot is fully built: every config in
the list has a cache entry under its own key. -/
def cacheComplete (m : stateManager) : Prop :=
  ∀ s, m.State = some s → ∀ cid ∈ s.Configs, (s.cache (keyAt m.heap cid)).isSome = true

/-- The published-snapshot invariant: the `State` pointer is non-nil and
its key index is fully built. -/
def publishedInv (m : stateManager) : Prop :=
  m.State.isSome = true ∧ cacheComplete m

/-- The record array of the spec's round-trip test. -/
def exampleRecords : List (String × JVal) :=
  [("foo", .jbool true), ("bar", .jnum 3)]

/-- A manager that has published a snapshot loaded from
`exampleRecords`. -/
def exampleMgr : stateManager :=
  (loadConfig { heap := [], State := none } "p" (.records exampleRecords)).1

/-- A manager whose single key `"flag"` is configured with the number
`q`, wrapped as the client's state manager. -/
def flagMgr (q : ℚ) : SM :=
  .mgr (loadConfig { heap := [], State := none } "p" (.records [("flag", .jnum q)])).1

/-! ## Helper lemmas about the heap and the key index -/

theorem heapSet_length (h : Heap) (cid : Nat) (v : PV) :
    (heapSet h cid v).length = h.length := by
  induction h generalizing cid with
  | nil => rfl
  | cons c t ih =>
    cases cid with
    | zero => rfl
    | succ n => simp [heapSet, ih]

theorem heapSet_getElem_ne (h : Heap) (cid j : Nat) (v : PV) (hne : j ≠ cid) :
    (heapSet h cid v)[j]? = h[j]? := by
  induction h generalizing cid j with
  | nil => rfl
  | cons c t ih =>
    cases cid with
    | zero =>
      cases j with
      | zero => exact absurd rfl hne
      | succ m => simp [heapSet]
    | succ n =>
      cases j with
      | zero => simp [heapSet]
      | succ m =>
        simpa [heapSet] using ih n m (fun hh => hne (by simp [hh]))

theorem heapSet_getElem_self (h : Heap) (cid : Nat) (v : PV) (c : Config)
    (hc : h[cid]? = some c) :
    (heapSet h cid v)[cid]? = some { c with parsedValue := some v } := by
  induction h generalizing cid with
  | nil => simp at hc
  | cons d t ih =>
    cases cid with
    | zero =>
      simp only [List.getElem?_cons_zero, Option.some.injEq] at hc
      subst hc
      simp [heapSet]
    | succ n =>
      simp only [List.getElem?_cons_succ] at hc
      simpa [heapSet] using ih n hc

theorem heapSet_oob (h : Heap) (cid : Nat) (v : PV) (hc : h[cid]? = none) :
    heapSet h cid v = h := by
  induction h generalizing cid with
  | nil => rfl
  | cons d t ih =>
    cases cid with
    | zero => simp at hc
    | succ n =>
      simp only [List.getElem?_cons_succ] at hc
      simp [heapSet, ih n hc]

theorem heapSet_shape (h : Heap) (cid j : Nat) (v : PV) :
    (heapSet h cid v)[j]?.map Config.Key = h[j]?.map Config.Key ∧
    (heapSet h cid v)[j]?.map Config.RawValue = h[j]?.map Config.RawValue := by
  by_cases hj : j = cid
  · subst hj
    cases hc : h[j]? with
    | none => rw [heapSet_oob h j v hc, hc]; exact ⟨rfl, rfl⟩
    | some c => rw [heapSet_getElem_self h j v c hc]; simp
  · rw [heapSet_getElem_ne h cid j v hj]; exact ⟨rfl, rfl⟩

theorem keyAt_heapSet (h : Heap) (cid j : Nat) (v : PV) :
    keyAt (heapSet h cid v) j = keyAt h j := by
  unfold keyAt
  rw [(heapSet_shape h cid j v).1]

theorem rawAt_heapSet (h : Heap) (cid j : Nat) (v : PV) :
    rawAt (heapSet h cid v) j = rawAt h j := by
  unfold rawAt
  rw [(heapSet_shape h cid j v).2]

theorem parsedAt_heapSet_self (h : Heap) (cid : Nat) (v : PV) (c : Config)
    (hc : h[cid]? = some c) :
    parsedAt (heapSet h cid v) cid = some v := by
  unfold parsedAt
  rw [heapSet_getElem_self h cid v c hc]
  rfl

theorem parsedAt_heapSet_ne (h : Heap) (cid j : Nat) (v : PV) (hne : j ≠ cid) :
    parsedAt (heapSet h cid v) j = parsedAt h j := by
  unfold parsedAt
  rw [heapSet_getElem_ne h cid j v hne]

/-- The key index built by folding map assignments equals a backwards
search of the config list: the last inserted binding for a key wins. -/
theorem buildCache_foldl (h : Heap) (cs : List Nat) (m : String → Option Nat)
    (k : String) :
    (cs.foldl (fun m cid => cacheInsert m (keyAt h cid) cid) m) k =
      (cs.reverse.find? (fun cid => keyAt h cid == k)).or (m k) := by
  induction cs generalizing m with
  | nil => simp
  | cons c t ih =>
    simp only [List.foldl_cons, List.reverse_cons, List.find?_append]
    rw [ih]
    cases hf : t.reverse.find? (fun cid => keyAt h cid == k) with
    | some cid => simp
    | none =>
      simp only [Option.none_or]
      by_cases hk : keyAt h c = k
      · subst hk
        simp [cacheInsert, List.find?]
      · have hb : (keyAt h c == k) = false := by
          simpa using hk
        have hk' : ¬(k = keyAt h c) := fun hh => hk hh.symm
        simp [cacheInsert, List.find?, hb, hk']

theorem allocConfigs_heap (rs : List (String × JVal)) (h : Heap) :
    (allocConfigs h rs).1 = h ++ rs.map freshConfig := by
  induction rs generalizing h with
  | nil => simp [allocConfigs]
  | cons r rest ih => simp [allocConfigs, ih]

theorem allocConfigs_head_getElem (h : Heap) (r : String × JVal)
    (rest : List (String × JVal)) :
    (allocConfigs (h ++ [freshConfig r]) rest).1[h.length]? = some (freshConfig r) := by
  rw [allocConfigs_heap, List.append_assoc,
    List.getElem?_append_right (Nat.le_refl h.length)]
  simp

/-- Searching the freshly allocated pointers backwards for a key agrees,
pointer by pointer, with searching the record array backwards: the found
config's key and raw value are the found record's key and value. -/
theorem allocConfigs_find (rs : List (String × JVal)) (h : Heap) (k : String) :
    ((allocConfigs h rs).2.reverse.find?
        (fun cid => keyAt (allocConfigs h rs).1 cid == k)).map
      (fun cid => (keyAt (allocConfigs h rs).1 cid, rawAt (allocConfigs h rs).1 cid))
    = (rs.reverse.find? (fun r => r.1 == k)).map (fun r => (r.1, some r.2)) := by
  induction rs generalizing h with
  | nil => simp [allocConfigs]
  | cons r rest ih =>
    have hkey : keyAt (allocConfigs (h ++ [freshConfig r]) rest).1 h.length = r.1 := by
      unfold keyAt
      rw [allocConfigs_head_getElem]
      rfl
    have hraw : rawAt (allocConfigs (h ++ [freshConfig r]) rest).1 h.length = some r.2 := by
      unfold rawAt
      rw [allocConfigs_head_getElem]
      rfl
    simp only [allocConfigs, List.reverse_cons, List.find?_append]
    cases hf : (allocConfigs (h ++ [freshConfig r]) rest).2.reverse.find?
        (fun cid => keyAt (allocConfigs (h ++ [freshConfig r]) rest).1 cid == k) with
    | some cid =>
      have := ih (h ++ [freshConfig r])
      rw [hf] at this
      cases hg : rest.reverse.find? (fun r => r.1 == k) with
      | some r' => rw [hg] at this; simpa using this
      | none => rw [hg] at this; simp at this
    | none =>
      have := ih (h ++ [freshConfig r])
      rw [hf] at this
      cases hg : rest.reverse.find? (fun r => r.1 == k) with
      | some r' => rw [hg] at this; simp at this
      | none =>
        simp only [Option.none_or]
        by_cases hr : r.1 = k
        · have hb : (r.1 == k) = true := by simpa using hr
          simp [List.find?, hkey, hraw, hb]
        · have hb : (r.1 == k) = false := by simpa using hr
          simp [List.find?, hkey, hb]

/-- After a successful load, `GetKey` is a backwards search of the freshly
allocated pointers for the key. -/
theorem loadConfig_records_GetKey (sm : stateManager) (p : String)
    (rs : List (String × JVal)) (k : String) :
    (loadConfig sm p (.records rs)).1.GetKey k =
      some (match (allocConfigs sm.heap rs).2.reverse.find?
              (fun cid => keyAt (allocConfigs sm.heap rs).1 cid == k) with
            | some cid => Except.ok cid
            | none => Except.error GetErr.notFound) := by
  have hfold := buildCache_foldl (allocConfigs sm.heap rs).1
    (allocConfigs sm.heap rs).2 (fun _ => none) k
  rw [Option.or_none] at hfold
  simp only [loadConfig, stateManager.GetKey, State.buildCache, State.get,
    Option.map_some']
  rw [hfold]
  cases (allocConfigs sm.heap rs).2.reverse.find?
      (fun cid => keyAt (allocConfigs sm.heap rs).1 cid == k) <;> rfl

/-! ## Claim theorems -/

/-- C1: Fail-open atomicity of reload. For every manager that already
holds a published Snapshot, if `loadConfig` fails — the read fails
(`ReadError`) or the bytes do not parse (`ParseError`) — the manager is
left completely unchanged: every subsequent `GetKey` returns exactly the
same result as before, and the memoized values are untouched. -/
theorem c1_loadConfig_fail_open (sm : stateManager) (p : String) (f : FileView)
    (_hpub : sm.State.isSome = true)
    (hf : f = FileView.readFail ∨ f = FileView.malformed) :
    (loadConfig sm p f).1 = sm ∧
    (f = FileView.readFail → (loadConfig sm p f).2 = .error (.readError p)) ∧
    (f = FileView.malformed → (loadConfig sm p f).2 = .error (.parseError p)) ∧
    (∀ k, (loadConfig sm p f).1.GetKey k = sm.GetKey k) ∧
    (∀ cid, (loadConfig sm p f).1.GetParsedValue cid = sm.GetParsedValue cid) := by
  rcases hf with rfl | rfl
  · exact ⟨rfl, fun _ => rfl, fun h => FileView.noConfusion h,
      fun k => rfl, fun cid => rfl⟩
  · exact ⟨rfl, fun h => FileView.noConfusion h, fun _ => rfl,
      fun k => rfl, fun cid => rfl⟩

/-- Witness for C1 at a concrete published snapshot and a failed read. -/
theorem c1_witness :
    (loadConfig exampleMgr "p" FileView.readFail).1 = exampleMgr :=
  (c1_loadConfig_fail_open exampleMgr "p" FileView.readFail (by decide)
    (Or.inl rfl)).1

/-- C2: Round trip with last-write-wins. After a successful `loadConfig`
of a well-formed record array, `GetKey k` succeeds exactly when some
record has key `k`; the returned config's raw value is the (unparsed)
value sub-document of the last record whose key is `k`; a key in no
record yields `NotFound`. -/
theorem c2_loadConfig_roundTrip (sm : stateManager) (p : String)
    (rs : List (String × JVal)) (k : String) :
    (loadConfig sm p (.records rs)).2 = .ok () ∧
    ((∃ cid, (loadConfig sm p (.records rs)).1.GetKey k = some (.ok cid)) ↔
        k ∈ rs.map Prod.fst) ∧
    (∀ cid, (loadConfig sm p (.records rs)).1.GetKey k = some (.ok cid) →
        rawAt (loadConfig sm p (.records rs)).1.heap cid = lastValue rs k) ∧
    (k ∉ rs.map Prod.fst →
        (loadConfig sm p (.records rs)).1.GetKey k = some (.error .notFound)) := by
  have hheap : (loadConfig sm p (FileView.records rs)).1.heap =
      (allocConfigs sm.heap rs).1 := rfl
  have hgk := loadConfig_records_GetKey sm p rs k
  have afind := allocConfigs_find rs sm.heap k
  refine ⟨rfl, ?_, ?_, ?_⟩
  · constructor
    · rintro ⟨cid, hcid⟩
      rw [hgk] at hcid
      cases hF : (allocConfigs sm.heap rs).2.reverse.find?
          (fun cid => keyAt (allocConfigs sm.heap rs).1 cid == k) with
      | none => rw [hF] at hcid; simp at hcid
      | some cid0 =>
        rw [hF, Option.map_some'] at afind
        cases hg : rs.reverse.find? (fun r => r.1 == k) with
        | none => rw [hg] at afind; simp at afind
        | some r' =>
          have hq : r'.1 = k := by simpa using List.find?_some hg
          have hmem : r' ∈ rs := List.mem_reverse.mp (List.mem_of_find?_eq_some hg)
          exact List.mem_map.mpr ⟨r', hmem, hq⟩
    · intro hk
      rcases List.mem_map.mp hk with ⟨r0, hr0, hr0k⟩
      have hsome : (rs.reverse.find? (fun r => r.1 == k)).isSome := by
        rw [List.find?_isSome]
        exact ⟨r0, List.mem_reverse.mpr hr0, by simpa using hr0k⟩
      cases hg : rs.reverse.find? (fun r => r.1 == k) with
      | none => rw [hg] at hsome; simp at hsome
      | some r' =>
        rw [hg] at afind
        cases hF : (allocConfigs sm.heap rs).2.reverse.find?
            (fun cid => keyAt (allocConfigs sm.heap rs).1 cid == k) with
        | none => rw [hF] at afind; simp at afind
        | some cid0 =>
          refine ⟨cid0, ?_⟩
          rw [hgk, hF]
  · intro cid hcid
    rw [hgk] at hcid
    cases hF : (allocConfigs sm.heap rs).2.reverse.find?
        (fun cid => keyAt (allocConfigs sm.heap rs).1 cid == k) with
    | none => rw [hF] at hcid; simp at hcid
    | some cid0 =>
      rw [hF] at hcid
      simp only [Option.some.injEq, Except.ok.injEq] at hcid
      subst hcid
      rw [hF, Option.map_some'] at afind
      cases hg : rs.reverse.find? (fun r => r.1 == k) with
      | none => rw [hg] at afind; simp at afind
      | some r' =>
        rw [hg, Option.map_some'] at afind
        have hraw : rawAt (allocConfigs sm.heap rs).1 cid0 = some r'.2 := by
          have := congrArg Prod.snd (Option.some.inj afind)
          simpa using this
        rw [hheap, hraw]
        unfold lastValue
        rw [hg, Option.map_some']
  · intro hk
    have hg : rs.reverse.find? (fun r => r.1 == k) = none := by
      rw [List.find?_eq_none]
      intro r hr hbr
      exact hk (List.mem_map.mpr ⟨r, List.mem_reverse.mp hr, by simpa using hbr⟩)
    rw [hg] at afind
    simp only [Option.map_none'] at afind
    have hF : (allocConfigs sm.heap rs).2.reverse.find?
        (fun cid => keyAt (allocConfigs sm.heap rs).1 cid == k) = none :=
      Option.map_eq_none'.mp afind
    rw [hgk, hF]

/-- Witness for C2 at the spec's round-trip example. -/
theorem c2_witness :
    (loadConfig { heap := [], State := none } "p" (.records exampleRecords)).2
      = .ok () ∧
    ¬("baz" ∈ exampleRecords.map Prod.fst) ∧
    (loadConfig { heap := [], State := none } "p"
        (.records exampleRecords)).1.GetKey "baz" = some (.error .notFound) :=
  ⟨(c2_loadConfig_roundTrip { heap := [], State := none } "p" exampleRecords "baz").1,
   by decide,
   (c2_loadConfig_roundTrip { heap := [], State := none } "p" exampleRecords "baz").2.2.2
     (by decide)⟩

/-- C5: Watcher event dispatch. An event for another path does nothing; a
create/write event invokes the callback exactly once with the event path;
a remove/rename/chmod event re-registers the watch on the same path and
invokes the callback once only if re-registration succeeds, logging and
skipping the callback otherwise; any other op invokes no callback. -/
theorem c5_startWatcher_dispatch (p : String) (ev : FsEvent) (reAddOk cbFails : Bool) :
    (ev.name ≠ p → startWatcherStep p ev reAddOk cbFails =
        { callbackPaths := [], reAddPath := none, logged := false }) ∧
    (ev.name = p → (ev.op = .create ∨ ev.op = .write) →
        startWatcherStep p ev reAddOk cbFails =
          { callbackPaths := [ev.name], reAddPath := none, logged := cbFails }) ∧
    (ev.name = p → (ev.op = .remove ∨ ev.op = .rename ∨ ev.op = .chmod) →
        (startWatcherStep p ev reAddOk cbFails).reAddPath = some p ∧
        (reAddOk = true →
          (startWatcherStep p ev reAddOk cbFails).callbackPaths = [p]) ∧
        (reAddOk = false → startWatcherStep p ev reAddOk cbFails =
          { callbackPaths := [], reAddPath := some p, logged := true })) ∧
    (ev.name = p → ev.op = .otherOp →
        startWatcherStep p ev reAddOk cbFails =
          { callbackPaths := [], reAddPath := none, logged := false }) := by
  obtain ⟨nm, op⟩ := ev
  refine ⟨?_, ?_, ?_, ?_⟩
  · intro hne
    simp [startWatcherStep, hne]
  · intro heq hop
    subst heq
    rcases hop with rfl | rfl <;> simp [startWatcherStep]
  · intro heq hop
    subst heq
    rcases hop with rfl | rfl | rfl <;> cases reAddOk <;> simp [startWatcherStep]
  · intro heq hop
    subst heq
    rcases hop with rfl
    simp [startWatcherStep]

/-- Witness for C5: a write event on the watched path invokes the callback
once with that path. -/
theorem c5_witness :
    startWatcherStep "configs.json" { name := "configs.json", op := .write }
        true false =
      { callbackPaths := ["configs.json"], reAddPath := none, logged := false } :=
  (c5_startWatcher_dispatch "configs.json"
      { name := "configs.json", op := .write } true false).2.1 rfl (Or.inr rfl)

/-- C6: Start fails on an absent path. When the watcher's target path does
not exist at `Start()` time, `Start` returns a path-not-found error
carrying that path, registers no watch and spawns no loop goroutine; and
`NewStateManager` propagates this error — annotated with the resolved
path `dirPath/scope/configs.json` — as a construction failure, returning
no manager. -/
theorem c6_start_absent_path (dirPath scope : String) (addOk : Bool)
    (files : List FileView) :
    (CmWatcher.Start (resolvePath dirPath scope) false addOk).err =
      some { kind := .pathNotFound, pathOnErr := some (resolvePath dirPath scope) } ∧
    (CmWatcher.Start (resolvePath dirPath scope) false addOk).watchAdded = false ∧
    (CmWatcher.Start (resolvePath dirPath scope) false addOk).loopSpawned = false ∧
    (NewStateManager dirPath scope false addOk files).mgr = none ∧
    (NewStateManager dirPath scope false addOk files).err =
      some { kind := .pathNotFound, pathOnErr := some (resolvePath dirPath scope) } ∧
    (NewStateManager dirPath scope false addOk files).watchAdded = false ∧
    (NewStateManager dirPath scope false addOk files).loopSpawned = false := by
  refine ⟨rfl, rfl, rfl, ?_, ?_, ?_, ?_⟩ <;> rfl

/-- C8: Memoization write is framed. `SetParsedValue` changes only the
given config's memo field: every config's key and raw value, every other
config's memo field, and the published `State` (hence the key set and all
`GetKey` results) are unchanged, and a subsequent `GetParsedValue` on that
config returns the written value. -/
theorem c8_setParsedValue_frame (sm : stateManager) (cid : Nat) (v : PV)
    (c : Config) (hc : sm.heap[cid]? = some c) :
    (sm.SetParsedValue cid v).State = sm.State ∧
    (sm.SetParsedValue cid v).heap.length = sm.heap.length ∧
    (∀ j, keyAt (sm.SetParsedValue cid v).heap j = keyAt sm.heap j) ∧
    (∀ j, rawAt (sm.SetParsedValue cid v).heap j = rawAt sm.heap j) ∧
    (∀ j, j ≠ cid →
      (sm.SetParsedValue cid v).GetParsedValue j = sm.GetParsedValue j) ∧
    (sm.SetParsedValue cid v).GetParsedValue cid = some v ∧
    (∀ k, (sm.SetParsedValue cid v).GetKey k = sm.GetKey k) := by
  refine ⟨rfl, heapSet_length sm.heap cid v,
    fun j => keyAt_heapSet sm.heap cid j v,
    fun j => rawAt_heapSet sm.heap cid j v,
    fun j hj => parsedAt_heapSet_ne sm.heap cid j v hj,
    parsedAt_heapSet_self sm.heap cid v c hc,
    fun k => rfl⟩

/-- Witness for C8 on a concrete one-config manager. -/
theorem c8_witness :
    (exampleMgr.SetParsedValue 0 (.pBool true)).GetParsedValue 0 =
      some (.pBool true) :=
  (c8_setParsedValue_frame exampleMgr 0 (.pBool true)
      { Key := "foo", RawValue := .jbool true, parsedValue := none }
      rfl).2.2.2.2.2.1

/-- C9: Null manager contract. `NullStateManager.GetKey` always fails with
`NotFound`, `GetParsedValue` returns nil, `SetParsedValue` and `Close` are
no-ops, and every typed getter of a null client returns the
caller-supplied default (without logging or deserializing) for every
key. -/
theorem c9_null_manager_contract :
    (∀ k, SM.GetKey .null k = some (.error .notFound)) ∧
    (∀ cid, SM.GetParsedValue .null cid = none) ∧
    (∀ cid v, SM.SetParsedValue .null cid v = .null) ∧
    SM.Close .null = .null ∧
    (∀ k d, GetBoolean .null k d =
      some { val := d, sm := .null, logged := false, desers := 0 }) ∧
    (∀ k d, GetInt64 .null k d =
      some { val := d, sm := .null, logged := false, desers := 0 }) ∧
    (∀ k d, GetFloat64 .null k d =
      some { val := d, sm := .null, logged := false, desers := 0 }) ∧
    (∀ k d, GetString .null k d =
      some { val := d, sm := .null, logged := false, desers := 0 }) ∧
    (∀ k d, GetByte .null k d =
      some { val := d, sm := .null, logged := false, desers := 0 }) ∧
    (∀ k t d, IsTokenWhitelisted .null k t d =
      some { val := d, sm := .null, logged := false, desers := 0 }) ∧
    (∀ k pid d, IsProjectWhitelisted .null k pid d =
      some { val := d, sm := .null, logged := false, desers := 0 }) := by
  refine ⟨fun k => rfl, fun cid => rfl, fun cid v => rfl, rfl,
    fun k d => rfl, fun k d => rfl, fun k d => rfl, fun k d => rfl,
    fun k d => rfl, fun k t d => rfl, fun k pid d => rfl⟩

/-- C7: Feature-flag boundary. `rollDie` (hence `IsFeatureEnabled`)
returns true exactly when the draw is strictly below the probability the
`float64` read produced; with the draw fixed at 0.8, a flag configured at
0.9 is enabled and one configured at 0.1 is disabled; for an absent key
the probability defaults to 1.0 or 0.0 according to `enabledByDefault`,
so any draw in `[0,1)` yields `enabledByDefault`. -/
theorem c7_feature_flag_boundary :
    (∀ sm k eBD draw out,
        GetFloat64 sm k (if eBD then (1 : ℚ) else 0) = some out →
        rollDie sm k eBD draw = some (decide (draw < out.val), out.sm)) ∧
    (∀ eBD, (rollDie (flagMgr (mkRat 9 10)) "flag" eBD (mkRat 8 10)).map Prod.fst =
        some true) ∧
    (∀ eBD, (rollDie (flagMgr (mkRat 1 10)) "flag" eBD (mkRat 8 10)).map Prod.fst =
        some false) ∧
    (∀ sm k eBD draw, SM.GetKey sm k = some (.error .notFound) →
        0 ≤ draw → draw < 1 → rollDie sm k eBD draw = some (eBD, sm)) := by
  refine ⟨?_, ?_, ?_, ?_⟩
  · intro sm k eBD draw out hget
    simp only [rollDie]
    rw [hget]
  · intro eBD
    cases eBD <;> decide
  · intro eBD
    cases eBD <;> decide
  · intro sm k eBD draw hget h0 h1
    have hfl : GetFloat64 sm k (if eBD then (1 : ℚ) else 0) =
        some { val := if eBD then (1 : ℚ) else 0, sm := sm, logged := false,
               desers := 0 } := by
      simp [GetFloat64, getFloat64, hget, wrapTyped, logErrGet]
    simp only [rollDie]
    rw [hfl]
    cases eBD
    · have : ¬draw < 0 := not_lt.mpr h0
      simp [this]
    · simp [h1]

/-- Witness for C7: applying the general comparison clause at the 0.9
flag and draw 0.8. -/
theorem c7_witness :
    rollDie (flagMgr (mkRat 9 10)) "flag" true (mkRat 8 10) =
      some (decide
          (mkRat 8 10 <
            (Option.getD (GetFloat64 (flagMgr (mkRat 9 10)) "flag" 1)
                { val := 0, sm := .null, logged := false, desers := 0 }).val),
        (Option.getD (GetFloat64 (flagMgr (mkRat 9 10)) "flag" 1)
            { val := 0, sm := .null, logged := false, desers := 0 }).sm) :=
  (c7_feature_flag_boundary).1 (flagMgr (mkRat 9 10)) "flag" true (mkRat 8 10)
    (Option.getD (GetFloat64 (flagMgr (mkRat 9 10)) "flag" 1)
        { val := 0, sm := .null, logged := false, desers := 0 })
    (by rfl)

theorem SM.GetKey_setParsedValue (sm : SM) (cid : Nat) (v : PV) (k : String) :
    (SM.SetParsedValue sm cid v).GetKey k = sm.GetKey k := by
  cases sm <;> rfl

theorem SM.GetParsedValue_set_self (sm : SM) (cid : Nat) (v : PV) (raw : JVal)
    (hraw : sm.rawAt cid = some raw) :
    (SM.SetParsedValue sm cid v).GetParsedValue cid = some v := by
  cases sm with
  | null => simp [SM.rawAt] at hraw
  | mgr m =>
    simp only [SM.rawAt, rawAt] at hraw
    rcases Option.map_eq_some'.mp hraw with ⟨c, hc, hcv⟩
    exact parsedAt_heapSet_self m.heap cid v c hc

theorem getBoolean_memo_hit (sm : SM) (k : String) (cid : Nat) (b d : Bool)
    (hk : SM.GetKey sm k = some (.ok cid))
    (hm : SM.GetParsedValue sm cid = some (.pBool b)) :
    GetBoolean sm k d = some { val := b, sm := sm, logged := false, desers := 0 } := by
  simp [GetBoolean, getBoolean, hk, hm, wrapTyped]

theorem iterGetBoolean_memo (n : Nat) (sm : SM) (k : String) (cid : Nat)
    (b d : Bool)
    (hk : SM.GetKey sm k = some (.ok cid))
    (hm : SM.GetParsedValue sm cid = some (.pBool b)) :
    iterGetBoolean n sm k d = some (List.replicate n b, sm, 0) := by
  induction n with
  | zero => rfl
  | succ n ih =>
    simp [iterGetBoolean, getBoolean_memo_hit sm k cid b d hk hm, ih,
      List.replicate_succ]

/-- C3: Memoization of typed getters. For a key whose raw value
deserializes to a boolean and whose config has no memoized value yet,
`n + 1` consecutive `GetBoolean` calls against an unchanging snapshot
deserialize exactly once (on the first call, which stores the result via
`SetParsedValue`); every later call finds the memoized boolean and
returns it without deserializing, and all calls return the same value. -/
theorem c3_getBoolean_memoization (sm : SM) (k : String) (cid : Nat)
    (raw : JVal) (b d : Bool) (n : Nat)
    (hk : SM.GetKey sm k = some (.ok cid))
    (hm : SM.GetParsedValue sm cid = none)
    (hraw : SM.rawAt sm cid = some raw)
    (hdec : decodeBool raw = some b) :
    iterGetBoolean (n + 1) sm k d =
      some (List.replicate (n + 1) b, SM.SetParsedValue sm cid (.pBool b), 1) := by
  have hfirst : GetBoolean sm k d =
      some { val := b, sm := SM.SetParsedValue sm cid (.pBool b),
             logged := false, desers := 1 } := by
    simp [GetBoolean, getBoolean, hk, hm, clientUnmarshal, hraw, hdec, wrapTyped]
  have hk1 : (SM.SetParsedValue sm cid (.pBool b)).GetKey k = some (.ok cid) := by
    rw [SM.GetKey_setParsedValue]
    exact hk
  have hm1 : (SM.SetParsedValue sm cid (.pBool b)).GetParsedValue cid =
      some (.pBool b) :=
    SM.GetParsedValue_set_self sm cid (.pBool b) raw hraw
  simp [iterGetBoolean, hfirst,
    iterGetBoolean_memo n (SM.SetParsedValue sm cid (.pBool b)) k cid b d hk1 hm1,
    List.replicate_succ]

/-- Witness for C3: five `GetBoolean("foo", false)` calls against the
example snapshot deserialize exactly once and all return `true`. -/
theorem c3_witness :
    iterGetBoolean 5 (.mgr exampleMgr) "foo" false =
      some (List.replicate 5 true,
        SM.SetParsedValue (.mgr exampleMgr) 0 (.pBool true), 1) :=
  c3_getBoolean_memoization (.mgr exampleMgr) "foo" 0 (.jbool true) true false 4
    rfl rfl rfl rfl

theorem cacheComplete_empty : cacheComplete { heap := [], State := none } := by
  intro s hs
  exact Option.noConfusion hs

theorem cacheComplete_loadConfig (m : stateManager) (p : String) (f : FileView)
    (h : cacheComplete m) : cacheComplete (loadConfig m p f).1 := by
  cases f with
  | readFail => exact h
  | malformed => exact h
  | records rs =>
    intro s hs cid hcid
    have hs' : State.buildCache (allocConfigs m.heap rs).1
        { Configs := (allocConfigs m.heap rs).2, cache := fun _ => none } = s :=
      Option.some.inj hs
    subst hs'
    simp only [State.buildCache] at hcid ⊢
    rw [show (loadConfig m p (FileView.records rs)).1.heap =
        (allocConfigs m.heap rs).1 from rfl]
    rw [buildCache_foldl, Option.or_none]
    exact (List.find?_isSome).mpr ⟨cid, List.mem_reverse.mpr hcid, by simp⟩

theorem cacheComplete_runLoads (files : List FileView) (m : stateManager)
    (p : String) (h : cacheComplete m) : cacheComplete (runLoads m p files) := by
  induction files generalizing m with
  | nil => exact h
  | cons f t ih => exact ih _ (cacheComplete_loadConfig m p f h)

/-- C10: Published-snapshot invariant. A manager returned by a successful
construction has a non-nil `State` whose key index is fully built, and
every operation preserves this: a failed `loadConfig` leaves the state
unchanged, a successful one publishes another non-nil fully built state,
`SetParsedValue` preserves the invariant, and `GetKey` against a non-nil
state never dereferences an absent snapshot. -/
theorem c10_published_snapshot_invariant :
    (∀ dirPath scope pathExists addOk files m,
        (NewStateManager dirPath scope pathExists addOk files).mgr = some m →
        publishedInv m) ∧
    (∀ (m : stateManager) (p : String) (f : FileView),
        cacheComplete m → cacheComplete (loadConfig m p f).1) ∧
    (∀ (m : stateManager) (p : String) (f : FileView),
        m.State.isSome = true → (loadConfig m p f).1.State.isSome = true) ∧
    (∀ (m : stateManager) (p : String), (loadConfig m p .readFail).1 = m) ∧
    (∀ (m : stateManager) (p : String), (loadConfig m p .malformed).1 = m) ∧
    (∀ (m : stateManager) (cid : Nat) (v : PV),
        publishedInv m → publishedInv (m.SetParsedValue cid v)) ∧
    (∀ (m : stateManager) (k : String),
        m.State.isSome = true → (m.GetKey k).isSome = true) := by
  refine ⟨?_, fun m p f h => cacheComplete_loadConfig m p f h, ?_, ?_, ?_, ?_, ?_⟩
  · intro dirPath scope pathExists addOk files m hm
    cases pathExists with
    | false => simp [NewStateManager, CmWatcher.Start] at hm
    | true =>
      cases addOk with
      | false => simp [NewStateManager, CmWatcher.Start] at hm
      | true =>
        cases hS : (runLoads { heap := [], State := none }
            (resolvePath dirPath scope) files).State with
        | none => simp [NewStateManager, CmWatcher.Start, hS] at hm
        | some s =>
          simp [NewStateManager, CmWatcher.Start, hS] at hm
          subst hm
          refine ⟨?_, cacheComplete_runLoads files _ _ cacheComplete_empty⟩
          rw [hS]
          rfl
  · intro m p f h
    cases f with
    | readFail => exact h
    | malformed => exact h
    | records rs => rfl
  · intro m p
    rfl
  · intro m p
    rfl
  · intro m cid v h
    refine ⟨h.1, ?_⟩
    intro s hs cid' hcid'
    have hprev := h.2 s hs cid' hcid'
    have hk : keyAt (m.SetParsedValue cid v).heap cid' = keyAt m.heap cid' :=
      keyAt_heapSet m.heap cid cid' v
    rw [hk]
    exact hprev
  · intro m k h
    rcases Option.isSome_iff_exists.mp h with ⟨s, hs⟩
    simp only [stateManager.GetKey, hs, Option.map_some', Option.isSome_some]

/-- Witness for C10: a concrete successful construction satisfies the
published-snapshot invariant. -/
theorem c10_witness :
    publishedInv (runLoads { heap := [], State := none }
      (resolvePath "etc" "svc") [.records exampleRecords]) :=
  c10_published_snapshot_invariant.1 "etc" "svc" true true
    [.records exampleRecords]
    (runLoads { heap := [], State := none } (resolvePath "etc" "svc")
      [.records exampleRecords])
    rfl

end ConfigManager
